import Mathlib

/-!
Verification of the learning-rate range-test core (torch_lr_finder/lr_finder.py).

The Python source is shallowly embedded over the reals: a parameter group is a
record with a current learning rate and an optional initial_lr marker, the
optimizer is the list of its parameter groups, and the whole mutable state of
an LRFinder instance (the two history series, the best loss, the optimizer) is
a FinderState.  range_test maps a prior state and the per-iteration losses
delivered by the step executors to the state after the call, together with the
error it raises, if any.  Errors are the error taxonomy of the design.
-/

namespace TorchLRFinder

/-- One optimizer parameter group: its current learning rate and the
initial_lr marker that a constructed scheduler leaves on it.  A group carries
the marker exactly when the Option is some. -/
structure ParamGroup where
  lr : ℝ
  initial_lr : Option ℝ

instance : Inhabited ParamGroup := ⟨⟨0, none⟩⟩

/-- The error taxonomy of the design document; each constructor stands for one
of the ValueError or RuntimeError raises of the source. -/
inductive LRErr where
  | schedulerConflict
  | mismatchedGroupCount
  | unknownStepMode
  | invalidSmoothingFactor
  | invalidIterationCount
  | invalidTrimRange
  deriving DecidableEq

deriving instance DecidableEq for Except

/-- The two learning-rate policies the source implements. -/
inductive StepMode where
  | exp
  | linear
  deriving DecidableEq

/-- A start_lr argument: a scalar broadcast to every group, or one value per
parameter group. -/
inductive StartLR where
  | scalar (x : ℝ)
  | groups (xs : List ℝ)

/-- ASCII lower-casing of one character, as Python str.lower acts on the
ASCII step-mode strings the source compares against. -/
def lowerChar (c : Char) : Char :=
  if 65 ≤ c.toNat ∧ c.toNat ≤ 90 then Char.ofNat (c.toNat + 32) else c

/-- ASCII lower-casing of a string; model of step_mode.lower() in the source. -/
def lowerStr (s : String) : String := String.mk (s.data.map lowerChar)

/-- LinearLR.get_lr (lr_finder.py lines 368-378, modern-PyTorch branch):
lr(epoch) = base_lr + (epoch / (num_iter - 1)) * (end_lr - base_lr), one value
per captured base learning rate. -/
noncomputable def LinearLR.get_lr (base_lrs : List ℝ) (end_lr : ℝ) (num_iter : ℕ)
    (last_epoch : ℕ) : List ℝ :=
  base_lrs.map fun base_lr =>
    base_lr + ((last_epoch : ℝ) / ((num_iter : ℝ) - 1)) * (end_lr - base_lr)

/-- ExponentialLR.get_lr (lr_finder.py lines 401-411, modern-PyTorch branch):
lr(epoch) = base_lr * (end_lr / base_lr) ^ (epoch / (num_iter - 1)), one value
per captured base learning rate, with the real power function standing for the
Python float power. -/
noncomputable def ExponentialLR.get_lr (base_lrs : List ℝ) (end_lr : ℝ) (num_iter : ℕ)
    (last_epoch : ℕ) : List ℝ :=
  base_lrs.map fun base_lr =>
    base_lr * (end_lr / base_lr) ^ ((last_epoch : ℝ) / ((num_iter : ℝ) - 1))

/-- The schedule object range_test constructs: the selected policy, the target
rate, the planned iteration count, and the base rates captured once at
construction. -/
structure Scheduler where
  mode : StepMode
  end_lr : ℝ
  num_iter : ℕ
  base_lrs : List ℝ

/-- get_lr of the constructed schedule at a given epoch counter value,
dispatching on the selected policy. -/
noncomputable def Scheduler.get_lr (s : Scheduler) (last_epoch : ℕ) : List ℝ :=
  match s.mode with
  | .linear => LinearLR.get_lr s.base_lrs s.end_lr s.num_iter last_epoch
  | .exp => ExponentialLR.get_lr s.base_lrs s.end_lr s.num_iter last_epoch

/-- Write a list of learning rates into the parameter groups pairwise; the
zip-and-set idiom of _set_learning_rate and of scheduler stepping. -/
def applyLrs (groups : List ParamGroup) (lrs : List ℝ) : List ParamGroup :=
  (groups.zip lrs).map fun p => { p.1 with lr := p.2 }

/-- LRFinder._check_for_scheduler (lines 242-245): any parameter group already
carrying an initial_lr marker is a fatal scheduler conflict. -/
def _check_for_scheduler (opt : List ParamGroup) : Option LRErr :=
  if opt.any fun g => g.initial_lr.isSome then some .schedulerConflict else none

/-- LRFinder._set_learning_rate (lines 230-240): a scalar is broadcast to
every group; a list must have exactly one value per group. -/
def _set_learning_rate (opt : List ParamGroup) (new_lrs : StartLR) :
    Except LRErr (List ParamGroup) :=
  let lrs := match new_lrs with
    | .scalar x => List.replicate opt.length x
    | .groups xs => xs
  if lrs.length ≠ opt.length then .error .mismatchedGroupCount
  else .ok (applyLrs opt lrs)

/-- Python truthiness of the start_lr argument as tested by the bare
if-statement on line 189: None and the float 0.0 and the empty list are
falsy, everything else truthy. -/
noncomputable def startTruthy : Option StartLR → Bool
  | none => false
  | some (.scalar x) => decide (x ≠ 0)
  | some (.groups xs) => !xs.isEmpty

/-- Lines 189-190 of range_test: the starting learning rate is written into
the optimizer only when the argument is truthy. -/
noncomputable def applyStart (opt : List ParamGroup) (s : Option StartLR) :
    Except LRErr (List ParamGroup) :=
  if startTruthy s then
    match s with
    | some sl => _set_learning_rate opt sl
    | none => .ok opt
  else .ok opt

/-- The step-mode dispatch of lines 193-198: the name is lower-cased and must
be exp or linear. -/
def parseMode (step_mode : String) : Except LRErr StepMode :=
  if lowerStr step_mode = "exp" then .ok .exp
  else if lowerStr step_mode = "linear" then .ok .linear
  else .error .unknownStepMode

/-- Construction of the selected schedule (LinearLR.__init__ and
ExponentialLR.__init__, lines 359-366 and 392-399): num_iter of at most 1 is
rejected before anything is touched.  Modelled from the spec: the torch base
class _LRScheduler.__init__, which is external to this repository, then stamps
the initial_lr marker on every parameter group (setdefault), captures the
per-group base rates from those markers, and performs the initial step that
writes the epoch-0 learning rates back into the groups. -/
noncomputable def schedInit (mode : StepMode) (opt : List ParamGroup) (end_lr : ℝ)
    (num_iter : ℕ) : Except LRErr (Scheduler × List ParamGroup) :=
  if num_iter ≤ 1 then .error .invalidIterationCount
  else
    let optm := opt.map fun g => { g with initial_lr := some (g.initial_lr.getD g.lr) }
    let s : Scheduler := ⟨mode, end_lr, num_iter, optm.map fun g => g.initial_lr.getD g.lr⟩
    .ok (s, applyLrs optm (s.get_lr 0))

/-- The sweep loop of range_test (lines 203-226), one constructor case per
iteration.  The first argument counts the iterations still to run, the second
is the current iteration index; the accumulators are the two history series,
the best loss seen (None until iteration 0 has run) and the live optimizer.
Each iteration reads the raw loss, appends the head of get_lr to the lr
history, advances the schedule (which writes the next learning rates into the
groups), smooths the loss against the last recorded loss when the factor is
positive and the iteration is not the first, updates the best loss, appends
the recorded loss, and stops early when the recorded loss exceeds
diverge_th times the best loss. -/
noncomputable def runIters (raw : ℕ → ℝ) (sched : Scheduler) (smooth_f diverge_th : ℝ) :
    ℕ → ℕ → List ℝ → List ℝ → Option ℝ → List ParamGroup →
    List ℝ × List ℝ × Option ℝ × List ParamGroup
  | 0, _, hlr, hls, best, opt => (hlr, hls, best, opt)
  | fuel + 1, i, hlr, hls, best, opt =>
    let loss := raw i
    let hlr2 := hlr ++ [(sched.get_lr i).headD 0]
    let opt2 := applyLrs opt (sched.get_lr (i + 1))
    let loss2 := if i = 0 then loss
      else if 0 < smooth_f then smooth_f * loss + (1 - smooth_f) * hls.getLastD 0
      else loss
    let best2 := if i = 0 then loss2
      else if loss2 < best.getD loss2 then loss2 else best.getD loss2
    let hls2 := hls ++ [loss2]
    if diverge_th * best2 < loss2 then (hlr2, hls2, some best2, opt2)
    else runIters raw sched smooth_f diverge_th fuel (i + 1) hlr2 hls2 (some best2) opt2

/-- The mutable state of an LRFinder instance that range_test reads and
writes: the two history series, the best loss, and the optimizer. -/
structure FinderState where
  history_lr : List ℝ
  history_loss : List ℝ
  best_loss : Option ℝ
  opt : List ParamGroup

/-- LRFinder.range_test (lines 181-228).  The prior state is the state of the
finder before the call; trainLoss and valLoss give the loss the training and
the optional validation step executor return at each iteration, the recorded
loss being the validation one when a validation executor is present.  The
result is the state after the call paired with the raised error, if any.
History and best loss are reset first; then the scheduler-conflict check, the
start_lr write, the schedule construction and the smooth_f validation run in
the order of the source, and only then the sweep loop. -/
noncomputable def range_test (prior : FinderState) (trainLoss : ℕ → ℝ)
    (valLoss : Option (ℕ → ℝ)) (start_lr : Option StartLR) (end_lr : ℝ)
    (num_iter : ℕ) (step_mode : String) (smooth_f diverge_th : ℝ) :
    FinderState × Option LRErr :=
  let s0 : FinderState :=
    { history_lr := [], history_loss := [], best_loss := none, opt := prior.opt }
  match _check_for_scheduler s0.opt with
  | some e => (s0, some e)
  | none =>
    match applyStart s0.opt start_lr with
    | .error e => (s0, some e)
    | .ok opt1 =>
      match parseMode step_mode with
      | .error e => ({ s0 with opt := opt1 }, some e)
      | .ok m =>
        match schedInit m opt1 end_lr num_iter with
        | .error e => ({ s0 with opt := opt1 }, some e)
        | .ok (sched, opt2) =>
          if smooth_f < 0 ∨ 1 ≤ smooth_f then
            ({ s0 with opt := opt2 }, some .invalidSmoothingFactor)
          else
            let r := runIters (valLoss.getD trainLoss) sched smooth_f diverge_th
              num_iter 0 [] [] none opt2
            ({ history_lr := r.1, history_loss := r.2.1, best_loss := r.2.2.1,
               opt := r.2.2.2 }, none)

/-- The loss the loop records at iteration i, written as a recurrence: the raw
loss at iteration 0, and afterwards the exponentially smoothed value against
the previously recorded loss whenever the smoothing factor is positive.  This
restates the single-iteration bookkeeping of lines 213-218 as a sequence, so
that the behavior of a whole run can be stated. -/
noncomputable def recSeq (raw : ℕ → ℝ) (f : ℝ) : ℕ → ℝ
  | 0 => raw 0
  | i + 1 => if 0 < f then f * raw (i + 1) + (1 - f) * recSeq raw f i else raw (i + 1)

/-- The best loss after iteration i, as the loop of lines 213-220 maintains
it: the recorded loss at iteration 0, then lowered to each later recorded loss
that is strictly smaller. -/
noncomputable def bestSeq (raw : ℕ → ℝ) (f : ℝ) : ℕ → ℝ
  | 0 => raw 0
  | i + 1 => if recSeq raw f (i + 1) < bestSeq raw f i then recSeq raw f (i + 1)
    else bestSeq raw f i

/-- The stopping condition of line 224 at iteration i: the recorded loss
exceeds diverge_th times the best loss as updated in that same iteration. -/
noncomputable def diverged (raw : ℕ → ℝ) (f th : ℝ) (i : ℕ) : Prop :=
  th * bestSeq raw f i < recSeq raw f i

/-- The learning rate the loop appends to the history at iteration i: the
first entry of get_lr, as on line 210. -/
noncomputable def lrAt (sched : Scheduler) (i : ℕ) : ℝ := (sched.get_lr i).headD 0

/-- np.gradient on a one-dimensional array with unit spacing, as the analyzer
calls it on line 312 (numpy is external to this repository; this is its
documented finite-difference gradient): one-sided differences at the two ends,
central differences in the interior, and a ValueError, here None, on fewer
than two points. -/
noncomputable def npGradient (ys : List ℝ) : Option (List ℝ) :=
  if ys.length < 2 then none
  else some ((List.range ys.length).map fun i =>
    if i = 0 then ys.getD 1 0 - ys.getD 0 0
    else if i = ys.length - 1 then ys.getD i 0 - ys.getD (i - 1) 0
    else (ys.getD (i + 1) 0 - ys.getD (i - 1) 0) / 2)

/-- Accumulator loop of the argmin: the best value so far, its index, and the
index of the next element to look at.  A strict comparison keeps the first
occurrence of the minimum, as np.argmin does. -/
noncomputable def argminAux : ℝ → ℕ → ℕ → List ℝ → ℕ
  | _, bestIdx, _, [] => bestIdx
  | best, bestIdx, cur, y :: ys =>
    if y < best then argminAux y cur (cur + 1) ys
    else argminAux best bestIdx (cur + 1) ys

/-- np.argmin on a one-dimensional array: the first index of the smallest
element, 0 on an empty array. -/
noncomputable def argminIdx : List ℝ → ℕ
  | [] => 0
  | x :: xs => argminAux x 0 1 xs

/-- The slicing of lines 289-296: only the records from skip_start on are
kept, and when skip_end is positive the last skip_end records are dropped too,
as the Python slices from skip_start and from skip_start to minus skip_end
do. -/
def trimmed (xs : List ℝ) (skip_start skip_end : ℤ) : List ℝ :=
  if skip_end = 0 then xs.drop skip_start.toNat
  else (xs.take (xs.length - skip_end.toNat)).drop skip_start.toNat

/-- The steepest-gradient suggestion of lines 307-343: the learning rate at
the first index of the smallest finite-difference gradient of the losses -
except that line 342 tests the index for truthiness, so an index of 0 yields
no suggestion, exactly as a failed gradient computation does. -/
noncomputable def suggestion (lrs losses : List ℝ) : Option ℝ :=
  match npGradient losses with
  | none => none
  | some g => if argminIdx g ≠ 0 then some (lrs.getD (argminIdx g) 0) else none

/-- LRFinder.plot without the drawing (lines 280-345): reject negative skip
counts, trim the two history series, and, when asked, suggest a learning
rate. -/
noncomputable def plot (hist_lr hist_loss : List ℝ) (skip_start skip_end : ℤ)
    (suggest_lr : Bool) : Except LRErr (List ℝ × List ℝ × Option ℝ) :=
  if skip_start < 0 then .error .invalidTrimRange
  else if skip_end < 0 then .error .invalidTrimRange
  else
    .ok (trimmed hist_lr skip_start skip_end, trimmed hist_loss skip_start skip_end,
      if suggest_lr then
        suggestion (trimmed hist_lr skip_start skip_end)
          (trimmed hist_loss skip_start skip_end)
      else none)

end TorchLRFinder

namespace TorchLRFinder

/-- Claim C1: for every num_iter N greater than 1 and every base and end
learning rate (positive in the exponential case), the linear schedule at
iteration index 0 returns the base rate and at index N-1 returns exactly
end_lr; the exponential schedule does likewise, and when end_lr exceeds the
base every intermediate exponential value lies strictly between base and end
rate. -/
theorem c1_schedule_endpoints (N : ℕ) (hN : 1 < N) (b e : ℝ) :
    LinearLR.get_lr [b] e N 0 = [b] ∧
    LinearLR.get_lr [b] e N (N - 1) = [e] ∧
    (0 < b → 0 < e →
      ExponentialLR.get_lr [b] e N 0 = [b] ∧
      ExponentialLR.get_lr [b] e N (N - 1) = [e]) ∧
    (0 < b → b < e → ∀ i, 0 < i → i < N - 1 →
      b < (ExponentialLR.get_lr [b] e N i).headD 0 ∧
      (ExponentialLR.get_lr [b] e N i).headD 0 < e) := by
  have hNR : (1 : ℝ) < (N : ℝ) := by exact_mod_cast hN
  have hcast : ((N - 1 : ℕ) : ℝ) = (N : ℝ) - 1 := by
    push_cast [Nat.cast_sub hN.le]
    ring
  have hNpos : (0 : ℝ) < (N : ℝ) - 1 := by linarith
  have hNe : (N : ℝ) - 1 ≠ 0 := ne_of_gt hNpos
  refine ⟨?_, ?_, ?_, ?_⟩
  · simp [LinearLR.get_lr]
  · simp only [LinearLR.get_lr, List.map_cons, List.map_nil, hcast, div_self hNe]
    norm_num
  · intro hb _
    constructor
    · simp [ExponentialLR.get_lr]
    · simp only [ExponentialLR.get_lr, List.map_cons, List.map_nil, hcast, div_self hNe,
        Real.rpow_one]
      rw [mul_div_cancel₀ _ (ne_of_gt hb)]
  · intro hb hbe i hi0 hiN
    have hbase : 1 < e / b := (one_lt_div hb).mpr hbe
    have hr0 : 0 < (i : ℝ) / ((N : ℝ) - 1) := by
      apply div_pos _ hNpos
      exact_mod_cast hi0
    have hr1 : (i : ℝ) / ((N : ℝ) - 1) < 1 := by
      rw [div_lt_one hNpos]
      have h1 : (i : ℝ) < ((N - 1 : ℕ) : ℝ) := by exact_mod_cast hiN
      rwa [hcast] at h1
    have h1 : (1 : ℝ) < (e / b) ^ ((i : ℝ) / ((N : ℝ) - 1)) := by
      calc (1 : ℝ) = (e / b) ^ (0 : ℝ) := (Real.rpow_zero _).symm
      _ < (e / b) ^ ((i : ℝ) / ((N : ℝ) - 1)) :=
          Real.rpow_lt_rpow_of_exponent_lt hbase hr0
    have h2 : (e / b) ^ ((i : ℝ) / ((N : ℝ) - 1)) < e / b := by
      calc (e / b) ^ ((i : ℝ) / ((N : ℝ) - 1)) < (e / b) ^ (1 : ℝ) :=
          Real.rpow_lt_rpow_of_exponent_lt hbase hr1
      _ = e / b := Real.rpow_one _
    constructor
    · have h3 : b < b * ((e / b) ^ ((i : ℝ) / ((N : ℝ) - 1))) :=
        (lt_mul_iff_one_lt_right hb).mpr h1
      simpa [ExponentialLR.get_lr] using h3
    · have h3 : b * ((e / b) ^ ((i : ℝ) / ((N : ℝ) - 1))) < b * (e / b) :=
        (mul_lt_mul_left hb).mpr h2
      have h4 : b * (e / b) = e := by field_simp
      rw [h4] at h3
      simpa [ExponentialLR.get_lr] using h3

/-- Witness for C1 at N = 3, base 1, end 4. -/
theorem c1_schedule_endpoints_witness :
    1 < 3 ∧
    (LinearLR.get_lr [(1 : ℝ)] 4 3 0 = [1] ∧
     LinearLR.get_lr [(1 : ℝ)] 4 3 (3 - 1) = [4] ∧
     ((0 : ℝ) < 1 → (0 : ℝ) < 4 →
       ExponentialLR.get_lr [(1 : ℝ)] 4 3 0 = [1] ∧
       ExponentialLR.get_lr [(1 : ℝ)] 4 3 (3 - 1) = [4]) ∧
     ((0 : ℝ) < 1 → (1 : ℝ) < 4 → ∀ i, 0 < i → i < 3 - 1 →
       1 < (ExponentialLR.get_lr [(1 : ℝ)] 4 3 i).headD 0 ∧
       (ExponentialLR.get_lr [(1 : ℝ)] 4 3 i).headD 0 < 4)) :=
  ⟨by norm_num, c1_schedule_endpoints 3 (by norm_num) 1 4⟩

/-- Writing one rate list and then another over the same groups is the same as
writing only the second, provided the two lists have the same length. -/
theorem applyLrs_applyLrs (gs : List ParamGroup) :
    ∀ l1 l2 : List ℝ, l1.length = l2.length →
      applyLrs (applyLrs gs l1) l2 = applyLrs gs l2 := by
  induction gs with
  | nil => intro l1 l2 _; simp [applyLrs]
  | cons g gs ih =>
    intro l1 l2 h
    cases l1 with
    | nil =>
      cases l2 with
      | nil => simp [applyLrs]
      | cons y l2 => simp at h
    | cons x l1 =>
      cases l2 with
      | nil => simp at h
      | cons y l2 =>
        simp only [List.length_cons] at h
        simp only [applyLrs, List.zip_cons_cons, List.map_cons] at *
        exact congrArg _ (ih l1 l2 (by omega))

/-- get_lr always returns one rate per captured base rate. -/
theorem Scheduler.length_get_lr (s : Scheduler) (i : ℕ) :
    (s.get_lr i).length = s.base_lrs.length := by
  cases hm : s.mode <;>
    simp [Scheduler.get_lr, LinearLR.get_lr, ExponentialLR.get_lr, hm]

/-- Length of applyLrs. -/
theorem length_applyLrs (gs : List ParamGroup) (ls : List ℝ) :
    (applyLrs gs ls).length = min gs.length ls.length := by
  simp [applyLrs]

/-- The last recorded entry of the first i recurrence values is the value at
i - 1. -/
theorem getLastD_map_range (g : ℕ → ℝ) (i : ℕ) (h : 0 < i) :
    ((List.range i).map g).getLastD 0 = g (i - 1) := by
  obtain ⟨m, rfl⟩ : ∃ m, i = m + 1 := ⟨i - 1, by omega⟩
  rw [List.range_succ, List.map_append]
  simp

/-- With a non-positive smoothing factor the recorded losses are the raw
losses. -/
theorem recSeq_eq_raw (raw : ℕ → ℝ) (f : ℝ) (hf : ¬ 0 < f) :
    ∀ i, recSeq raw f i = raw i := by
  intro i
  cases i with
  | zero => rfl
  | succ n => simp [recSeq, hf]

/-- Indexing the first k recurrence values. -/
theorem getD_map_range (g : ℕ → ℝ) (k i : ℕ) (h : i < k) :
    ((List.range k).map g).getD i 0 = g i := by
  simp [List.getD, List.getElem?_map, List.getElem?_range h]

end TorchLRFinder


namespace TorchLRFinder

/-- One unfolding of the loop at iteration 0: the loss is recorded raw and
becomes the best loss. -/
theorem runIters_step_zero (raw : ℕ → ℝ) (sched : Scheduler) (f th : ℝ)
    (fuel : ℕ) (hlr hls : List ℝ) (best : Option ℝ) (opt : List ParamGroup) :
    runIters raw sched f th (fuel + 1) 0 hlr hls best opt =
      if th * raw 0 < raw 0 then
        (hlr ++ [(sched.get_lr 0).headD 0], hls ++ [raw 0], some (raw 0),
         applyLrs opt (sched.get_lr 1))
      else runIters raw sched f th fuel 1 (hlr ++ [(sched.get_lr 0).headD 0])
        (hls ++ [raw 0]) (some (raw 0)) (applyLrs opt (sched.get_lr 1)) := rfl

/-- One unfolding of the loop at a later iteration with a best loss already
set: smoothing against the last recorded loss, then the best-loss update, then
the divergence test. -/
theorem runIters_step_succ (raw : ℕ → ℝ) (sched : Scheduler) (f th : ℝ)
    (fuel m : ℕ) (hlr hls : List ℝ) (b : ℝ) (opt : List ParamGroup) :
    runIters raw sched f th (fuel + 1) (m + 1) hlr hls (some b) opt =
      if th * (if (if 0 < f then f * raw (m + 1) + (1 - f) * hls.getLastD 0
              else raw (m + 1)) < b then
            (if 0 < f then f * raw (m + 1) + (1 - f) * hls.getLastD 0 else raw (m + 1))
          else b) <
          (if 0 < f then f * raw (m + 1) + (1 - f) * hls.getLastD 0 else raw (m + 1)) then
        (hlr ++ [(sched.get_lr (m + 1)).headD 0],
         hls ++ [if 0 < f then f * raw (m + 1) + (1 - f) * hls.getLastD 0 else raw (m + 1)],
         some (if (if 0 < f then f * raw (m + 1) + (1 - f) * hls.getLastD 0
              else raw (m + 1)) < b then
            (if 0 < f then f * raw (m + 1) + (1 - f) * hls.getLastD 0 else raw (m + 1))
          else b),
         applyLrs opt (sched.get_lr (m + 1 + 1)))
      else runIters raw sched f th fuel (m + 1 + 1)
        (hlr ++ [(sched.get_lr (m + 1)).headD 0])
        (hls ++ [if 0 < f then f * raw (m + 1) + (1 - f) * hls.getLastD 0 else raw (m + 1)])
        (some (if (if 0 < f then f * raw (m + 1) + (1 - f) * hls.getLastD 0
              else raw (m + 1)) < b then
            (if 0 < f then f * raw (m + 1) + (1 - f) * hls.getLastD 0 else raw (m + 1))
          else b))
        (applyLrs opt (sched.get_lr (m + 1 + 1))) := rfl

end TorchLRFinder

namespace TorchLRFinder

/-- Appending the next value to the first n values of a sequence. -/
theorem map_range_append (g : ℕ → ℝ) (n : ℕ) :
    (List.range n).map g ++ [g n] = (List.range (n + 1)).map g := by
  rw [List.range_succ, List.map_append]
  rfl

/-- Running the loop from iteration i with the canonical accumulators, when no
iteration in the window diverges, produces the canonical accumulators fuel
iterations later. -/
theorem runIters_no_div (raw : ℕ → ℝ) (sched : Scheduler) (f th : ℝ)
    (optm : List ParamGroup) :
    ∀ fuel i : ℕ,
      (∀ j, i ≤ j → j < i + fuel → ¬ diverged raw f th j) →
      runIters raw sched f th fuel i
        ((List.range i).map (lrAt sched))
        ((List.range i).map (recSeq raw f))
        (if i = 0 then none else some (bestSeq raw f (i - 1)))
        (applyLrs optm (sched.get_lr i)) =
      ((List.range (i + fuel)).map (lrAt sched),
       (List.range (i + fuel)).map (recSeq raw f),
       if i + fuel = 0 then none else some (bestSeq raw f (i + fuel - 1)),
       applyLrs optm (sched.get_lr (i + fuel))) := by
  intro fuel
  induction fuel with
  | zero =>
    intro i _
    simp [runIters]
  | succ fuel ih =>
    intro i hnod
    cases i with
    | zero =>
      rw [runIters_step_zero]
      have hcond : ¬ (th * raw 0 < raw 0) := hnod 0 (le_refl 0) (by omega)
      rw [if_neg hcond]
      have hopt2 : applyLrs (applyLrs optm (sched.get_lr 0)) (sched.get_lr 1) =
          applyLrs optm (sched.get_lr 1) :=
        applyLrs_applyLrs _ _ _ (by rw [Scheduler.length_get_lr, Scheduler.length_get_lr])
      rw [hopt2]
      have ih2 := ih 1 (by
        intro j h1 h2
        exact hnod j (by omega) (by omega))
      have e1 : 1 + fuel = 0 + (fuel + 1) := by omega
      rw [e1] at ih2
      exact ih2
    | succ m =>
      rw [if_neg (Nat.succ_ne_zero m), Nat.add_sub_cancel, runIters_step_succ]
      have hL : (if 0 < f then
          f * raw (m + 1) + (1 - f) * ((List.range (m + 1)).map (recSeq raw f)).getLastD 0
          else raw (m + 1)) = recSeq raw f (m + 1) := by
        rw [getLastD_map_range _ _ (Nat.succ_pos m), Nat.succ_sub_one, recSeq]
      rw [hL]
      have hB : (if recSeq raw f (m + 1) < bestSeq raw f m then recSeq raw f (m + 1)
          else bestSeq raw f m) = bestSeq raw f (m + 1) := by
        rw [bestSeq]
      rw [hB]
      have hcond : ¬ (th * bestSeq raw f (m + 1) < recSeq raw f (m + 1)) :=
        hnod (m + 1) (le_refl _) (by omega)
      rw [if_neg hcond]
      have hopt2 : applyLrs (applyLrs optm (sched.get_lr (m + 1))) (sched.get_lr (m + 1 + 1)) =
          applyLrs optm (sched.get_lr (m + 1 + 1)) :=
        applyLrs_applyLrs _ _ _ (by rw [Scheduler.length_get_lr, Scheduler.length_get_lr])
      rw [hopt2, map_range_append (recSeq raw f) (m + 1)]
      have hlr2 : ((List.range (m + 1)).map (lrAt sched)) ++ [(sched.get_lr (m + 1)).headD 0] =
          (List.range (m + 1 + 1)).map (lrAt sched) :=
        map_range_append (lrAt sched) (m + 1)
      rw [hlr2]
      have ih2 := ih (m + 1 + 1) (by
        intro j h1 h2
        exact hnod j (by omega) (by omega))
      rw [if_neg (by omega : ¬ m + 1 + 1 = 0), Nat.add_sub_cancel] at ih2
      have e1 : m + 1 + 1 + fuel = m + 1 + (fuel + 1) := by omega
      rw [e1] at ih2
      exact ih2

end TorchLRFinder

namespace TorchLRFinder

/-- Running the loop from iteration i with the canonical accumulators, when
iteration i0 in the window is the first to diverge, stops right after
iteration i0 with the canonical accumulators of i0 + 1 iterations. -/
theorem runIters_stop (raw : ℕ → ℝ) (sched : Scheduler) (f th : ℝ)
    (optm : List ParamGroup) :
    ∀ fuel i i0 : ℕ, i ≤ i0 → i0 < i + fuel →
      diverged raw f th i0 →
      (∀ j, i ≤ j → j < i0 → ¬ diverged raw f th j) →
      runIters raw sched f th fuel i
        ((List.range i).map (lrAt sched))
        ((List.range i).map (recSeq raw f))
        (if i = 0 then none else some (bestSeq raw f (i - 1)))
        (applyLrs optm (sched.get_lr i)) =
      ((List.range (i0 + 1)).map (lrAt sched),
       (List.range (i0 + 1)).map (recSeq raw f),
       some (bestSeq raw f i0),
       applyLrs optm (sched.get_lr (i0 + 1))) := by
  intro fuel
  induction fuel with
  | zero =>
    intro i i0 h1 h2 _ _
    exact absurd h2 (by omega)
  | succ fuel ih =>
    intro i i0 h1 h2 hd hmin
    cases i with
    | zero =>
      rw [runIters_step_zero]
      have hopt2 : applyLrs (applyLrs optm (sched.get_lr 0)) (sched.get_lr 1) =
          applyLrs optm (sched.get_lr 1) :=
        applyLrs_applyLrs _ _ _ (by rw [Scheduler.length_get_lr, Scheduler.length_get_lr])
      by_cases h0 : i0 = 0
      · subst h0
        have hd0 : th * raw 0 < raw 0 := hd
        rw [if_pos hd0, hopt2]
        rfl
      · have hcond : ¬ (th * raw 0 < raw 0) := hmin 0 (le_refl 0) (by omega)
        rw [if_neg hcond, hopt2]
        exact ih 1 i0 (by omega) (by omega) hd (by
          intro j hj1 hj2
          exact hmin j (by omega) hj2)
    | succ m =>
      rw [if_neg (Nat.succ_ne_zero m), Nat.add_sub_cancel, runIters_step_succ]
      have hL : (if 0 < f then
          f * raw (m + 1) + (1 - f) * ((List.range (m + 1)).map (recSeq raw f)).getLastD 0
          else raw (m + 1)) = recSeq raw f (m + 1) := by
        rw [getLastD_map_range _ _ (Nat.succ_pos m), Nat.succ_sub_one, recSeq]
      rw [hL]
      have hB : (if recSeq raw f (m + 1) < bestSeq raw f m then recSeq raw f (m + 1)
          else bestSeq raw f m) = bestSeq raw f (m + 1) := by
        rw [bestSeq]
      rw [hB]
      have hopt2 : applyLrs (applyLrs optm (sched.get_lr (m + 1))) (sched.get_lr (m + 1 + 1)) =
          applyLrs optm (sched.get_lr (m + 1 + 1)) :=
        applyLrs_applyLrs _ _ _ (by rw [Scheduler.length_get_lr, Scheduler.length_get_lr])
      have hlr2 : ((List.range (m + 1)).map (lrAt sched)) ++ [(sched.get_lr (m + 1)).headD 0] =
          (List.range (m + 1 + 1)).map (lrAt sched) :=
        map_range_append (lrAt sched) (m + 1)
      by_cases h0 : i0 = m + 1
      · subst h0
        have hd1 : th * bestSeq raw f (m + 1) < recSeq raw f (m + 1) := hd
        rw [if_pos hd1, hopt2, hlr2, map_range_append (recSeq raw f) (m + 1)]
      · have hcond : ¬ (th * bestSeq raw f (m + 1) < recSeq raw f (m + 1)) :=
          hmin (m + 1) (le_refl _) (by omega)
        rw [if_neg hcond, hopt2, hlr2, map_range_append (recSeq raw f) (m + 1)]
        exact ih (m + 1 + 1) i0 (by omega) (by omega) hd (by
          intro j hj1 hj2
          exact hmin j (by omega) hj2)

end TorchLRFinder

namespace TorchLRFinder

/-- When every validation of range_test passes, the call reduces to the sweep
loop started on the freshly constructed schedule. -/
theorem range_test_reduce (prior : FinderState) (trainLoss : ℕ → ℝ)
    (valLoss : Option (ℕ → ℝ)) (start : Option StartLR) (e : ℝ) (N : ℕ)
    (mode : String) (f th : ℝ) (opt1 optm : List ParamGroup) (m : StepMode)
    (sched : Scheduler)
    (hchk : _check_for_scheduler prior.opt = none)
    (hstart : applyStart prior.opt start = .ok opt1)
    (hmode : parseMode mode = .ok m)
    (hN : 1 < N)
    (hf : ¬ (f < 0 ∨ 1 ≤ f))
    (hoptm : optm = opt1.map fun g => { g with initial_lr := some (g.initial_lr.getD g.lr) })
    (hsched : sched = ⟨m, e, N, optm.map fun g => g.initial_lr.getD g.lr⟩) :
    range_test prior trainLoss valLoss start e N mode f th =
      ({ history_lr :=
           (runIters (valLoss.getD trainLoss) sched f th N 0 [] [] none
             (applyLrs optm (sched.get_lr 0))).1,
         history_loss :=
           (runIters (valLoss.getD trainLoss) sched f th N 0 [] [] none
             (applyLrs optm (sched.get_lr 0))).2.1,
         best_loss :=
           (runIters (valLoss.getD trainLoss) sched f th N 0 [] [] none
             (applyLrs optm (sched.get_lr 0))).2.2.1,
         opt :=
           (runIters (valLoss.getD trainLoss) sched f th N 0 [] [] none
             (applyLrs optm (sched.get_lr 0))).2.2.2 }, none) := by
  subst hsched
  subst hoptm
  have hN2 : ¬ (N ≤ 1) := by omega
  simp only [range_test, hchk, hstart, hmode, schedInit, if_neg hN2, if_neg hf]

end TorchLRFinder

namespace TorchLRFinder

/-- A validated call to range_test runs some number k of iterations: all N of
them when no iteration diverges, and exactly i0 + 1 of them when i0 is the
first diverging iteration; the resulting state is the canonical state of k
iterations. -/
theorem range_test_run (prior : FinderState) (trainLoss : ℕ → ℝ)
    (valLoss : Option (ℕ → ℝ)) (start : Option StartLR) (e : ℝ) (N : ℕ)
    (mode : String) (f th : ℝ) (opt1 optm : List ParamGroup) (m : StepMode)
    (sched : Scheduler)
    (hchk : _check_for_scheduler prior.opt = none)
    (hstart : applyStart prior.opt start = .ok opt1)
    (hmode : parseMode mode = .ok m)
    (hN : 1 < N)
    (hf0 : 0 ≤ f) (hf1 : f < 1)
    (hoptm : optm = opt1.map fun g => { g with initial_lr := some (g.initial_lr.getD g.lr) })
    (hsched : sched = ⟨m, e, N, optm.map fun g => g.initial_lr.getD g.lr⟩) :
    ∃ k, 0 < k ∧ k ≤ N ∧
      range_test prior trainLoss valLoss start e N mode f th =
        ({ history_lr := (List.range k).map (lrAt sched),
           history_loss := (List.range k).map (recSeq (valLoss.getD trainLoss) f),
           best_loss := some (bestSeq (valLoss.getD trainLoss) f (k - 1)),
           opt := applyLrs optm (sched.get_lr k) }, none) ∧
      ((∀ i, i < N → ¬ diverged (valLoss.getD trainLoss) f th i) → k = N) ∧
      (∀ i0, i0 < N → diverged (valLoss.getD trainLoss) f th i0 →
        (∀ j, j < i0 → ¬ diverged (valLoss.getD trainLoss) f th j) → k = i0 + 1) := by
  classical
  have hf : ¬ (f < 0 ∨ 1 ≤ f) := by
    intro h
    rcases h with h | h
    · linarith
    · linarith
  have hred := range_test_reduce prior trainLoss valLoss start e N mode f th opt1 optm m
    sched hchk hstart hmode hN hf hoptm hsched
  by_cases hdiv : ∃ i, i < N ∧ diverged (valLoss.getD trainLoss) f th i
  · refine ⟨Nat.find hdiv + 1, by omega, ?_, ?_, ?_, ?_⟩
    · have h1 := (Nat.find_spec hdiv).1
      omega
    · have hspec := Nat.find_spec hdiv
      have hminD : ∀ j, j < Nat.find hdiv → ¬ diverged (valLoss.getD trainLoss) f th j := by
        intro j hj hd
        exact Nat.find_min hdiv hj ⟨by omega, hd⟩
      have hstop : runIters (valLoss.getD trainLoss) sched f th N 0 [] [] none
          (applyLrs optm (sched.get_lr 0)) =
          ((List.range (Nat.find hdiv + 1)).map (lrAt sched),
           (List.range (Nat.find hdiv + 1)).map (recSeq (valLoss.getD trainLoss) f),
           some (bestSeq (valLoss.getD trainLoss) f (Nat.find hdiv)),
           applyLrs optm (sched.get_lr (Nat.find hdiv + 1))) :=
        runIters_stop (valLoss.getD trainLoss) sched f th optm N 0 (Nat.find hdiv)
          (by omega) (by omega) hspec.2 (by
            intro j _ hj2
            exact hminD j hj2)
      rw [hred, hstop, Nat.add_sub_cancel]
    · intro hno
      exact absurd ((Nat.find_spec hdiv).2) (hno _ (Nat.find_spec hdiv).1)
    · intro i0 h1 h2 h3
      have hle1 : Nat.find hdiv ≤ i0 := Nat.find_min' hdiv ⟨h1, h2⟩
      have hle2 : ¬ (Nat.find hdiv < i0) := by
        intro hlt
        exact h3 _ hlt (Nat.find_spec hdiv).2
      omega
  · push_neg at hdiv
    refine ⟨N, by omega, le_refl N, ?_, fun _ => rfl, ?_⟩
    · have hrun : runIters (valLoss.getD trainLoss) sched f th N 0 [] [] none
          (applyLrs optm (sched.get_lr 0)) =
          ((List.range (0 + N)).map (lrAt sched),
           (List.range (0 + N)).map (recSeq (valLoss.getD trainLoss) f),
           if 0 + N = 0 then none else some (bestSeq (valLoss.getD trainLoss) f (0 + N - 1)),
           applyLrs optm (sched.get_lr (0 + N))) :=
        runIters_no_div (valLoss.getD trainLoss) sched f th optm N 0 (by
          intro j _ hj2
          exact hdiv j (by omega))
      rw [if_neg (by omega : ¬ 0 + N = 0)] at hrun
      have e0 : 0 + N = N := by omega
      rw [e0] at hrun
      rw [hred, hrun]
    · intro i0 h1 h2 _
      exact absurd h2 (hdiv i0 h1)

end TorchLRFinder

namespace TorchLRFinder

/-- The best loss is the minimum of the recorded losses so far: it is a lower
bound of them and it is attained by one of them. -/
theorem bestSeq_min (raw : ℕ → ℝ) (f : ℝ) :
    ∀ i, (∀ j, j ≤ i → bestSeq raw f i ≤ recSeq raw f j) ∧
      (∃ j, j ≤ i ∧ bestSeq raw f i = recSeq raw f j) := by
  intro i
  induction i with
  | zero =>
    constructor
    · intro j hj
      have hj0 : j = 0 := Nat.le_zero.mp hj
      subst hj0
      exact le_refl _
    · exact ⟨0, le_refl 0, rfl⟩
  | succ n ih =>
    constructor
    · intro j hj
      rw [bestSeq]
      by_cases h : recSeq raw f (n + 1) < bestSeq raw f n
      · rw [if_pos h]
        rcases Nat.lt_succ_iff_lt_or_eq.mp (Nat.lt_succ_of_le hj) with hj2 | hj2
        · exact le_trans (le_of_lt h) (ih.1 j (by omega))
        · subst hj2
          exact le_refl _
      · rw [if_neg h]
        rcases Nat.lt_succ_iff_lt_or_eq.mp (Nat.lt_succ_of_le hj) with hj2 | hj2
        · exact ih.1 j (by omega)
        · subst hj2
          exact not_lt.mp h
    · rw [bestSeq]
      by_cases h : recSeq raw f (n + 1) < bestSeq raw f n
      · rw [if_pos h]
        exact ⟨n + 1, le_refl _, rfl⟩
      · rw [if_neg h]
        obtain ⟨j, hj1, hj2⟩ := ih.2
        exact ⟨j, by omega, hj2⟩

/-- The best loss never increases from one iteration to the next. -/
theorem bestSeq_antitone_step (raw : ℕ → ℝ) (f : ℝ) (i : ℕ) :
    bestSeq raw f (i + 1) ≤ bestSeq raw f i := by
  rw [bestSeq]
  by_cases h : recSeq raw f (i + 1) < bestSeq raw f i
  · rw [if_pos h]
    exact le_of_lt h
  · rw [if_neg h]

/-- Claim C2: in every run of range_test, the loss recorded at iteration i is
the raw loss of the step executor when i = 0 or the smoothing factor is 0, and
is smooth_f * raw_i + (1 - smooth_f) * recorded_(i-1), smoothed against the
previously recorded loss, when i > 0 and smooth_f > 0. -/
theorem c2_smoothing (prior : FinderState) (trainLoss : ℕ → ℝ)
    (valLoss : Option (ℕ → ℝ)) (start : Option StartLR) (e : ℝ) (N : ℕ)
    (mode : String) (f th : ℝ) (opt1 : List ParamGroup) (m : StepMode)
    (hchk : _check_for_scheduler prior.opt = none)
    (hstart : applyStart prior.opt start = .ok opt1)
    (hmode : parseMode mode = .ok m)
    (hN : 1 < N) (hf0 : 0 ≤ f) (hf1 : f < 1) :
    ∀ hist : List ℝ,
      hist = (range_test prior trainLoss valLoss start e N mode f th).1.history_loss →
      ∀ i, i < hist.length →
        ((i = 0 ∨ f = 0) → hist.getD i 0 = (valLoss.getD trainLoss) i) ∧
        (0 < i → 0 < f →
          hist.getD i 0 = f * (valLoss.getD trainLoss) i + (1 - f) * hist.getD (i - 1) 0) := by
  obtain ⟨k, hk0, hkN, heq, -, -⟩ := range_test_run prior trainLoss valLoss start e N mode
    f th opt1 _ m _ hchk hstart hmode hN hf0 hf1 rfl rfl
  intro hist hh i hi
  rw [heq] at hh
  simp only at hh
  subst hh
  simp only [List.length_map, List.length_range] at hi
  rw [getD_map_range _ _ _ hi]
  constructor
  · intro hcase
    rcases hcase with h0 | h0
    · subst h0
      rfl
    · subst h0
      exact recSeq_eq_raw _ _ (lt_irrefl 0) i
  · intro hipos hfpos
    obtain ⟨n, rfl⟩ : ∃ n, i = n + 1 := ⟨i - 1, by omega⟩
    have h1 : n + 1 - 1 = n := by omega
    rw [h1, getD_map_range _ _ _ (by omega : n < k), recSeq, if_pos hfpos]

/-- Claim C3: a validated run of range_test raises nothing; when no iteration
diverges the loop runs all num_iter iterations and both history series hold
exactly num_iter records, and when iteration i0 is the first whose recorded
loss exceeds diverge_th times the best loss, the loop stops there and both
series hold exactly i0 + 1 records, the divergent one included. -/
theorem c3_history_length (prior : FinderState) (trainLoss : ℕ → ℝ)
    (valLoss : Option (ℕ → ℝ)) (start : Option StartLR) (e : ℝ) (N : ℕ)
    (mode : String) (f th : ℝ) (opt1 : List ParamGroup) (m : StepMode)
    (hchk : _check_for_scheduler prior.opt = none)
    (hstart : applyStart prior.opt start = .ok opt1)
    (hmode : parseMode mode = .ok m)
    (hN : 1 < N) (hf0 : 0 ≤ f) (hf1 : f < 1) :
    (range_test prior trainLoss valLoss start e N mode f th).2 = none ∧
    ((∀ i, i < N → ¬ diverged (valLoss.getD trainLoss) f th i) →
      (range_test prior trainLoss valLoss start e N mode f th).1.history_loss.length = N ∧
      (range_test prior trainLoss valLoss start e N mode f th).1.history_lr.length = N) ∧
    (∀ i0, i0 < N → diverged (valLoss.getD trainLoss) f th i0 →
      (∀ j, j < i0 → ¬ diverged (valLoss.getD trainLoss) f th j) →
      (range_test prior trainLoss valLoss start e N mode f th).1.history_loss.length = i0 + 1 ∧
      (range_test prior trainLoss valLoss start e N mode f th).1.history_lr.length = i0 + 1) := by
  obtain ⟨k, hk0, hkN, heq, hkn, hki⟩ := range_test_run prior trainLoss valLoss start e N mode
    f th opt1 _ m _ hchk hstart hmode hN hf0 hf1 rfl rfl
  rw [heq]
  simp only [List.length_map, List.length_range]
  refine ⟨by trivial, ?_, ?_⟩
  · intro h
    rw [hkn h]
    exact ⟨by trivial, by trivial⟩
  · intro i0 h1 h2 h3
    rw [hki i0 h1 h2 h3]
    exact ⟨by trivial, by trivial⟩

/-- Claim C4: in every run of range_test the best loss starts as the first
recorded loss, never increases from one iteration to the next, and after every
iteration equals the minimum of the losses recorded so far; at the end of the
run it is the minimum over the whole recorded history. -/
theorem c4_best_loss (prior : FinderState) (trainLoss : ℕ → ℝ)
    (valLoss : Option (ℕ → ℝ)) (start : Option StartLR) (e : ℝ) (N : ℕ)
    (mode : String) (f th : ℝ) (opt1 : List ParamGroup) (m : StepMode)
    (hchk : _check_for_scheduler prior.opt = none)
    (hstart : applyStart prior.opt start = .ok opt1)
    (hmode : parseMode mode = .ok m)
    (hN : 1 < N) (hf0 : 0 ≤ f) (hf1 : f < 1) :
    ∀ hist : List ℝ,
      hist = (range_test prior trainLoss valLoss start e N mode f th).1.history_loss →
      bestSeq (valLoss.getD trainLoss) f 0 = (valLoss.getD trainLoss) 0 ∧
      hist.getD 0 0 = (valLoss.getD trainLoss) 0 ∧
      (∀ i, bestSeq (valLoss.getD trainLoss) f (i + 1) ≤ bestSeq (valLoss.getD trainLoss) f i) ∧
      (∀ i, i < hist.length → hist.getD i 0 = recSeq (valLoss.getD trainLoss) f i) ∧
      (∀ i, (∀ j, j ≤ i →
          bestSeq (valLoss.getD trainLoss) f i ≤ recSeq (valLoss.getD trainLoss) f j) ∧
        (∃ j, j ≤ i ∧
          bestSeq (valLoss.getD trainLoss) f i = recSeq (valLoss.getD trainLoss) f j)) ∧
      (range_test prior trainLoss valLoss start e N mode f th).1.best_loss =
        some (bestSeq (valLoss.getD trainLoss) f (hist.length - 1)) := by
  obtain ⟨k, hk0, hkN, heq, -, -⟩ := range_test_run prior trainLoss valLoss start e N mode
    f th opt1 _ m _ hchk hstart hmode hN hf0 hf1 rfl rfl
  intro hist hh
  rw [heq] at hh
  simp only at hh
  subst hh
  rw [heq]
  simp only [List.length_map, List.length_range]
  refine ⟨by trivial, ?_, bestSeq_antitone_step _ f, ?_, bestSeq_min _ f, by trivial⟩
  · rw [getD_map_range _ _ _ hk0]
    rfl
  · intro i hi
    exact getD_map_range _ _ _ hi

end TorchLRFinder

namespace TorchLRFinder

/-- Witness for C2: a concrete validated two-iteration linear run. -/
theorem c2_smoothing_witness :
    1 < 2 ∧
    (∀ hist : List ℝ,
      hist = (range_test ⟨[], [], none, [⟨3, none⟩]⟩ (fun _ => 1) none none 10 2
        "linear" 0 5).1.history_loss →
      ∀ i, i < hist.length →
        ((i = 0 ∨ (0 : ℝ) = 0) →
          hist.getD i 0 = ((none : Option (ℕ → ℝ)).getD (fun _ => 1)) i) ∧
        (0 < i → (0 : ℝ) < 0 →
          hist.getD i 0 = 0 * ((none : Option (ℕ → ℝ)).getD (fun _ => 1)) i +
            (1 - 0) * hist.getD (i - 1) 0)) :=
  ⟨by norm_num,
   c2_smoothing ⟨[], [], none, [⟨3, none⟩]⟩ (fun _ => 1) none none 10 2 "linear" 0 5
     [⟨3, none⟩] StepMode.linear rfl rfl (by decide) (by norm_num) (le_refl 0)
     (by norm_num)⟩

/-- Witness for C3: the same concrete validated two-iteration linear run. -/
theorem c3_history_length_witness :
    1 < 2 ∧
    ((range_test ⟨[], [], none, [⟨3, none⟩]⟩ (fun _ => 1) none none 10 2
        "linear" 0 5).2 = none ∧
     ((∀ i, i < 2 → ¬ diverged ((none : Option (ℕ → ℝ)).getD (fun _ => 1)) 0 5 i) →
       (range_test ⟨[], [], none, [⟨3, none⟩]⟩ (fun _ => 1) none none 10 2
         "linear" 0 5).1.history_loss.length = 2 ∧
       (range_test ⟨[], [], none, [⟨3, none⟩]⟩ (fun _ => 1) none none 10 2
         "linear" 0 5).1.history_lr.length = 2) ∧
     (∀ i0, i0 < 2 → diverged ((none : Option (ℕ → ℝ)).getD (fun _ => 1)) 0 5 i0 →
       (∀ j, j < i0 → ¬ diverged ((none : Option (ℕ → ℝ)).getD (fun _ => 1)) 0 5 j) →
       (range_test ⟨[], [], none, [⟨3, none⟩]⟩ (fun _ => 1) none none 10 2
         "linear" 0 5).1.history_loss.length = i0 + 1 ∧
       (range_test ⟨[], [], none, [⟨3, none⟩]⟩ (fun _ => 1) none none 10 2
         "linear" 0 5).1.history_lr.length = i0 + 1)) :=
  ⟨by norm_num,
   c3_history_length ⟨[], [], none, [⟨3, none⟩]⟩ (fun _ => 1) none none 10 2 "linear" 0 5
     [⟨3, none⟩] StepMode.linear rfl rfl (by decide) (by norm_num) (le_refl 0)
     (by norm_num)⟩

/-- Witness for C4: the same concrete validated two-iteration linear run. -/
theorem c4_best_loss_witness :
    1 < 2 ∧
    (∀ hist : List ℝ,
      hist = (range_test ⟨[], [], none, [⟨3, none⟩]⟩ (fun _ => 1) none none 10 2
        "linear" 0 5).1.history_loss →
      bestSeq ((none : Option (ℕ → ℝ)).getD (fun _ => 1)) 0 0 =
        ((none : Option (ℕ → ℝ)).getD (fun _ => 1)) 0 ∧
      hist.getD 0 0 = ((none : Option (ℕ → ℝ)).getD (fun _ => 1)) 0 ∧
      (∀ i, bestSeq ((none : Option (ℕ → ℝ)).getD (fun _ => 1)) 0 (i + 1) ≤
        bestSeq ((none : Option (ℕ → ℝ)).getD (fun _ => 1)) 0 i) ∧
      (∀ i, i < hist.length →
        hist.getD i 0 = recSeq ((none : Option (ℕ → ℝ)).getD (fun _ => 1)) 0 i) ∧
      (∀ i, (∀ j, j ≤ i →
          bestSeq ((none : Option (ℕ → ℝ)).getD (fun _ => 1)) 0 i ≤
            recSeq ((none : Option (ℕ → ℝ)).getD (fun _ => 1)) 0 j) ∧
        (∃ j, j ≤ i ∧
          bestSeq ((none : Option (ℕ → ℝ)).getD (fun _ => 1)) 0 i =
            recSeq ((none : Option (ℕ → ℝ)).getD (fun _ => 1)) 0 j)) ∧
      (range_test ⟨[], [], none, [⟨3, none⟩]⟩ (fun _ => 1) none none 10 2
        "linear" 0 5).1.best_loss =
        some (bestSeq ((none : Option (ℕ → ℝ)).getD (fun _ => 1)) 0 (hist.length - 1))) :=
  ⟨by norm_num,
   c4_best_loss ⟨[], [], none, [⟨3, none⟩]⟩ (fun _ => 1) none none 10 2 "linear" 0 5
     [⟨3, none⟩] StepMode.linear rfl rfl (by decide) (by norm_num) (le_refl 0)
     (by norm_num)⟩

end TorchLRFinder

namespace TorchLRFinder

/-- The learning rate written into group j by applyLrs is the j-th rate of the
list. -/
theorem applyLrs_lr_getD :
    ∀ (gs : List ParamGroup) (ls : List ℝ) (j : ℕ), j < gs.length → j < ls.length →
      ((applyLrs gs ls).getD j default).lr = ls.getD j 0 := by
  intro gs
  induction gs with
  | nil =>
    intro ls j h1 _
    simp at h1
  | cons g gs ih =>
    intro ls j h1 h2
    cases ls with
    | nil => simp at h2
    | cons x ls =>
      cases j with
      | zero => simp [applyLrs, List.getD]
      | succ n =>
        simp only [applyLrs, List.zip_cons_cons, List.map_cons] at *
        have := ih ls n (by simp at h1; omega) (by simp at h2; omega)
        simpa [List.getD] using this

/-- Every group produced by applyLrs keeps the initial_lr marker of one of the
input groups. -/
theorem mem_applyLrs :
    ∀ (gs : List ParamGroup) (ls : List ℝ) (p : ParamGroup), p ∈ applyLrs gs ls →
      ∃ g, g ∈ gs ∧ p.initial_lr = g.initial_lr := by
  intro gs
  induction gs with
  | nil =>
    intro ls p hp
    simp [applyLrs] at hp
  | cons g gs ih =>
    intro ls p hp
    cases ls with
    | nil => simp [applyLrs] at hp
    | cons x ls =>
      simp only [applyLrs, List.zip_cons_cons, List.map_cons, List.mem_cons] at hp
      rcases hp with hp | hp
      · exact ⟨g, List.mem_cons_self g gs, by rw [hp]⟩
      · obtain ⟨g2, hg2, he⟩ := ih ls p hp
        exact ⟨g2, List.mem_cons_of_mem g hg2, he⟩

/-- applyStart on a missing start rate is the identity. -/
theorem applyStart_none (opt : List ParamGroup) : applyStart opt none = .ok opt := rfl

/-- applyStart on a present start rate dispatches on truthiness. -/
theorem applyStart_some (opt : List ParamGroup) (sl : StartLR) :
    applyStart opt (some sl) =
      if startTruthy (some sl) then _set_learning_rate opt sl else .ok opt := rfl

/-- Unfolding of _set_learning_rate on a scalar rate. -/
theorem set_lr_scalar (opt : List ParamGroup) (x : ℝ) :
    _set_learning_rate opt (.scalar x) =
      if (List.replicate opt.length x).length ≠ opt.length then
        .error .mismatchedGroupCount
      else .ok (applyLrs opt (List.replicate opt.length x)) := rfl

/-- Unfolding of _set_learning_rate on a per-group list. -/
theorem set_lr_groups (opt : List ParamGroup) (xs : List ℝ) :
    _set_learning_rate opt (.groups xs) =
      if xs.length ≠ opt.length then .error .mismatchedGroupCount
      else .ok (applyLrs opt xs) := rfl

/-- applyStart never changes the number of parameter groups. -/
theorem applyStart_length (opt : List ParamGroup) (s : Option StartLR)
    (opt1 : List ParamGroup) (h : applyStart opt s = .ok opt1) :
    opt1.length = opt.length := by
  cases s with
  | none =>
    rw [applyStart_none] at h
    injection h with h
    rw [← h]
  | some sl =>
    rw [applyStart_some] at h
    by_cases ht : startTruthy (some sl)
    · rw [if_pos ht] at h
      cases sl with
      | scalar x =>
        rw [set_lr_scalar, if_neg (by simp)] at h
        injection h with h
        rw [← h, length_applyLrs]
        simp
      | groups xs =>
        rw [set_lr_groups] at h
        by_cases hlen : xs.length = opt.length
        · rw [if_neg (by simp [hlen])] at h
          injection h with h
          rw [← h, length_applyLrs]
          omega
        · rw [if_pos (by simp [hlen])] at h
          cases h
    · rw [if_neg ht] at h
      injection h with h
      rw [← h]

/-- An optimizer with at least one group, all groups carrying the marker,
fails the scheduler check. -/
theorem check_some_of_marked (opt : List ParamGroup) (hne : opt ≠ [])
    (hmark : ∀ p, p ∈ opt → p.initial_lr.isSome = true) :
    _check_for_scheduler opt = some .schedulerConflict := by
  unfold _check_for_scheduler
  rw [if_pos]
  cases opt with
  | nil => exact absurd rfl hne
  | cons p rest =>
    exact List.any_eq_true.mpr ⟨p, List.mem_cons_self p rest, hmark p (List.mem_cons_self p rest)⟩

/-- Claim C9: each iteration appends to the learning-rate history only the
first entry of get_lr, the scheduled rate of the first parameter group; at the
time, every parameter group of the optimizer, the later ones included, ends
the run carrying its own scheduled rate for the epoch the run reached. -/
theorem c9_history_first_group (prior : FinderState) (trainLoss : ℕ → ℝ)
    (valLoss : Option (ℕ → ℝ)) (start : Option StartLR) (e : ℝ) (N : ℕ)
    (mode : String) (f th : ℝ) (opt1 optm : List ParamGroup) (m : StepMode)
    (sched : Scheduler)
    (hchk : _check_for_scheduler prior.opt = none)
    (hstart : applyStart prior.opt start = .ok opt1)
    (hmode : parseMode mode = .ok m)
    (hN : 1 < N) (hf0 : 0 ≤ f) (hf1 : f < 1)
    (hoptm : optm = opt1.map fun g => { g with initial_lr := some (g.initial_lr.getD g.lr) })
    (hsched : sched = ⟨m, e, N, optm.map fun g => g.initial_lr.getD g.lr⟩) :
    ∀ s2 : FinderState, s2 = (range_test prior trainLoss valLoss start e N mode f th).1 →
      (∀ i, i < s2.history_lr.length →
        s2.history_lr.getD i 0 = (sched.get_lr i).headD 0) ∧
      s2.opt.length = opt1.length ∧
      (∀ j, j < s2.opt.length →
        (s2.opt.getD j default).lr = (sched.get_lr s2.history_lr.length).getD j 0) := by
  obtain ⟨k, hk0, hkN, heq, -, -⟩ := range_test_run prior trainLoss valLoss start e N mode
    f th opt1 optm m sched hchk hstart hmode hN hf0 hf1 hoptm hsched
  intro s2 hs2
  rw [heq] at hs2
  simp only at hs2
  subst hs2
  have hbase : sched.base_lrs.length = optm.length := by
    rw [hsched]
    simp
  have hoptml : optm.length = opt1.length := by
    rw [hoptm]
    simp
  have hlr : ∀ i, (sched.get_lr i).length = opt1.length := by
    intro i
    rw [Scheduler.length_get_lr, hbase, hoptml]
  have hoptlen : (applyLrs optm (sched.get_lr k)).length = opt1.length := by
    rw [length_applyLrs, hlr, hoptml, min_self]
  refine ⟨?_, ?_, ?_⟩
  · intro i hi
    simp only [List.length_map, List.length_range] at hi
    simp only [getD_map_range _ _ _ hi]
    rfl
  · simpa using hoptlen
  · intro j hj
    simp only at hj ⊢
    rw [hoptlen] at hj
    simp only [List.length_map, List.length_range]
    exact applyLrs_lr_getD optm (sched.get_lr k) j (by omega) (by rw [hlr]; omega)

/-- Claim C10: constructing the schedule inside range_test leaves the
initial_lr marker on every parameter group, so after a completed first run any
second call to range_test on the same optimizer raises the scheduler-conflict
error before recording anything. -/
theorem c10_second_run_conflict (prior : FinderState) (trainLoss : ℕ → ℝ)
    (valLoss : Option (ℕ → ℝ)) (start : Option StartLR) (e : ℝ) (N : ℕ)
    (mode : String) (f th : ℝ) (opt1 optm : List ParamGroup) (m : StepMode)
    (sched : Scheduler)
    (hne : prior.opt ≠ [])
    (hchk : _check_for_scheduler prior.opt = none)
    (hstart : applyStart prior.opt start = .ok opt1)
    (hmode : parseMode mode = .ok m)
    (hN : 1 < N) (hf0 : 0 ≤ f) (hf1 : f < 1)
    (hoptm : optm = opt1.map fun g => { g with initial_lr := some (g.initial_lr.getD g.lr) })
    (hsched : sched = ⟨m, e, N, optm.map fun g => g.initial_lr.getD g.lr⟩) :
    (range_test prior trainLoss valLoss start e N mode f th).2 = none ∧
    ∀ (t2 : ℕ → ℝ) (v2 : Option (ℕ → ℝ)) (s2 : Option StartLR) (e2 : ℝ) (N2 : ℕ)
      (mode2 : String) (f2 th2 : ℝ),
      (range_test (range_test prior trainLoss valLoss start e N mode f th).1
        t2 v2 s2 e2 N2 mode2 f2 th2).2 = some .schedulerConflict ∧
      (range_test (range_test prior trainLoss valLoss start e N mode f th).1
        t2 v2 s2 e2 N2 mode2 f2 th2).1.history_loss = [] ∧
      (range_test (range_test prior trainLoss valLoss start e N mode f th).1
        t2 v2 s2 e2 N2 mode2 f2 th2).1.history_lr = [] := by
  obtain ⟨k, hk0, hkN, heq, -, -⟩ := range_test_run prior trainLoss valLoss start e N mode
    f th opt1 optm m sched hchk hstart hmode hN hf0 hf1 hoptm hsched
  have hbase : sched.base_lrs.length = optm.length := by
    rw [hsched]
    simp
  have hoptml : optm.length = opt1.length := by
    rw [hoptm]
    simp
  have hlen1 : opt1.length = prior.opt.length := applyStart_length _ _ _ hstart
  have hne2 : applyLrs optm (sched.get_lr k) ≠ [] := by
    intro hnil
    have := congrArg List.length hnil
    rw [length_applyLrs, Scheduler.length_get_lr, hbase, min_self] at this
    simp only [List.length_nil] at this
    have hplen : prior.opt.length ≠ 0 := by
      intro h0
      exact hne (List.length_eq_zero.mp h0)
    omega
  have hmark : ∀ p, p ∈ applyLrs optm (sched.get_lr k) → p.initial_lr.isSome = true := by
    intro p hp
    obtain ⟨g, hg, hpg⟩ := mem_applyLrs optm (sched.get_lr k) p hp
    rw [hoptm] at hg
    obtain ⟨g0, -, hg0⟩ := List.mem_map.mp hg
    rw [hpg, ← hg0]
    rfl
  have hchk2 : _check_for_scheduler (applyLrs optm (sched.get_lr k)) =
      some .schedulerConflict := check_some_of_marked _ hne2 hmark
  refine ⟨by rw [heq], ?_⟩
  intro t2 v2 s2 e2 N2 mode2 f2 th2
  rw [heq]
  simp only [range_test, hchk2]
  exact ⟨by trivial, by trivial, by trivial⟩

end TorchLRFinder

namespace TorchLRFinder

/-- Witness for C9: the concrete validated two-iteration linear run. -/
theorem c9_history_first_group_witness :
    1 < 2 ∧
    (∀ s2 : FinderState,
      s2 = (range_test ⟨[], [], none, [⟨3, none⟩]⟩ (fun _ => 1) none none 10 2
        "linear" 0 5).1 →
      (∀ i, i < s2.history_lr.length →
        s2.history_lr.getD i 0 =
          ((⟨StepMode.linear, 10, 2, [3]⟩ : Scheduler).get_lr i).headD 0) ∧
      s2.opt.length = ([⟨3, none⟩] : List ParamGroup).length ∧
      (∀ j, j < s2.opt.length →
        (s2.opt.getD j default).lr =
          ((⟨StepMode.linear, 10, 2, [3]⟩ : Scheduler).get_lr s2.history_lr.length).getD j 0)) :=
  ⟨by norm_num,
   c9_history_first_group ⟨[], [], none, [⟨3, none⟩]⟩ (fun _ => 1) none none 10 2 "linear"
     0 5 [⟨3, none⟩] [⟨3, some 3⟩] StepMode.linear ⟨StepMode.linear, 10, 2, [3]⟩
     rfl rfl (by decide) (by norm_num) (le_refl 0) (by norm_num) rfl rfl⟩

/-- Witness for C10: after the concrete first run, every second call conflicts. -/
theorem c10_second_run_conflict_witness :
    1 < 2 ∧
    ((range_test ⟨[], [], none, [⟨3, none⟩]⟩ (fun _ => 1) none none 10 2
        "linear" 0 5).2 = none ∧
     ∀ (t2 : ℕ → ℝ) (v2 : Option (ℕ → ℝ)) (s2 : Option StartLR) (e2 : ℝ) (N2 : ℕ)
       (mode2 : String) (f2 th2 : ℝ),
       (range_test (range_test ⟨[], [], none, [⟨3, none⟩]⟩ (fun _ => 1) none none 10 2
         "linear" 0 5).1 t2 v2 s2 e2 N2 mode2 f2 th2).2 = some .schedulerConflict ∧
       (range_test (range_test ⟨[], [], none, [⟨3, none⟩]⟩ (fun _ => 1) none none 10 2
         "linear" 0 5).1 t2 v2 s2 e2 N2 mode2 f2 th2).1.history_loss = [] ∧
       (range_test (range_test ⟨[], [], none, [⟨3, none⟩]⟩ (fun _ => 1) none none 10 2
         "linear" 0 5).1 t2 v2 s2 e2 N2 mode2 f2 th2).1.history_lr = []) :=
  ⟨by norm_num,
   c10_second_run_conflict ⟨[], [], none, [⟨3, none⟩]⟩ (fun _ => 1) none none 10 2 "linear"
     0 5 [⟨3, none⟩] [⟨3, some 3⟩] StepMode.linear ⟨StepMode.linear, 10, 2, [3]⟩
     (by simp) rfl rfl (by decide) (by norm_num) (le_refl 0) (by norm_num) rfl rfl⟩

end TorchLRFinder

namespace TorchLRFinder

/-- A name that is neither exp nor linear after lower-casing is rejected. -/
theorem parseMode_err (mode : String) (h1 : lowerStr mode ≠ "exp")
    (h2 : lowerStr mode ≠ "linear") : parseMode mode = .error .unknownStepMode := by
  unfold parseMode
  rw [if_neg h1, if_neg h2]

/-- A marked optimizer makes range_test fail at the scheduler check, leaving
the optimizer untouched. -/
theorem range_test_conflict (prior : FinderState) (trainLoss : ℕ → ℝ)
    (valLoss : Option (ℕ → ℝ)) (start : Option StartLR) (e : ℝ) (N : ℕ)
    (mode : String) (f th : ℝ)
    (h : (prior.opt.any fun g => g.initial_lr.isSome) = true) :
    range_test prior trainLoss valLoss start e N mode f th =
      ({ history_lr := [], history_loss := [], best_loss := none, opt := prior.opt },
       some .schedulerConflict) := by
  have hchk : _check_for_scheduler prior.opt = some .schedulerConflict := by
    unfold _check_for_scheduler
    rw [if_pos h]
  simp only [range_test, hchk]

/-- An unknown step mode makes range_test fail at the dispatch, after the
start rate has been applied. -/
theorem range_test_badmode (prior : FinderState) (trainLoss : ℕ → ℝ)
    (valLoss : Option (ℕ → ℝ)) (start : Option StartLR) (e : ℝ) (N : ℕ)
    (mode : String) (f th : ℝ) (opt1 : List ParamGroup)
    (hchk : _check_for_scheduler prior.opt = none)
    (hstart : applyStart prior.opt start = .ok opt1)
    (hmode : parseMode mode = .error .unknownStepMode) :
    range_test prior trainLoss valLoss start e N mode f th =
      ({ history_lr := [], history_loss := [], best_loss := none, opt := opt1 },
       some .unknownStepMode) := by
  simp only [range_test, hchk, hstart, hmode]

/-- num_iter of at most 1 makes range_test fail at schedule construction,
after the start rate has been applied. -/
theorem range_test_baditer (prior : FinderState) (trainLoss : ℕ → ℝ)
    (valLoss : Option (ℕ → ℝ)) (start : Option StartLR) (e : ℝ) (N : ℕ)
    (mode : String) (f th : ℝ) (opt1 : List ParamGroup) (m : StepMode)
    (hchk : _check_for_scheduler prior.opt = none)
    (hstart : applyStart prior.opt start = .ok opt1)
    (hmode : parseMode mode = .ok m)
    (hN : N ≤ 1) :
    range_test prior trainLoss valLoss start e N mode f th =
      ({ history_lr := [], history_loss := [], best_loss := none, opt := opt1 },
       some .invalidIterationCount) := by
  have hinit : schedInit m opt1 e N = .error .invalidIterationCount := by
    unfold schedInit
    rw [if_pos hN]
  simp only [range_test, hchk, hstart, hmode, hinit]

/-- An out-of-range smooth_f makes range_test fail only after the schedule
construction has stamped the markers and re-written the epoch-0 rates. -/
theorem range_test_badsmooth (prior : FinderState) (trainLoss : ℕ → ℝ)
    (valLoss : Option (ℕ → ℝ)) (start : Option StartLR) (e : ℝ) (N : ℕ)
    (mode : String) (f th : ℝ) (opt1 optm : List ParamGroup) (m : StepMode)
    (sched : Scheduler)
    (hchk : _check_for_scheduler prior.opt = none)
    (hstart : applyStart prior.opt start = .ok opt1)
    (hmode : parseMode mode = .ok m)
    (hN : 1 < N)
    (hf : f < 0 ∨ 1 ≤ f)
    (hoptm : optm = opt1.map fun g => { g with initial_lr := some (g.initial_lr.getD g.lr) })
    (hsched : sched = ⟨m, e, N, optm.map fun g => g.initial_lr.getD g.lr⟩) :
    range_test prior trainLoss valLoss start e N mode f th =
      ({ history_lr := [], history_loss := [], best_loss := none,
         opt := applyLrs optm (sched.get_lr 0) }, some .invalidSmoothingFactor) := by
  subst hsched
  subst hoptm
  have hN2 : ¬ (N ≤ 1) := by omega
  simp only [range_test, hchk, hstart, hmode, schedInit, if_neg hN2, if_pos hf]

/-- Claim C5 (amended): every validation failure of range_test is raised
before any iteration runs, and the returned state carries empty histories and
an unset best loss; the specific triggers raise the specific errors of the
taxonomy.  However the pre-call state is not preserved: History and BestLoss
are reset at entry even on an erroring call, a truthy start_lr is written into
the optimizer before the num_iter, step_mode and smooth_f validations, and the
smooth_f failure is raised only after schedule construction has stamped the
initial_lr marker on every parameter group. -/
theorem c5_error_reset (prior : FinderState) (trainLoss : ℕ → ℝ)
    (valLoss : Option (ℕ → ℝ)) (start : Option StartLR) (e : ℝ) (N : ℕ)
    (mode : String) (f th : ℝ) :
    ((prior.opt.any fun g => g.initial_lr.isSome) = true →
      (range_test prior trainLoss valLoss start e N mode f th).2 = some .schedulerConflict ∧
      (range_test prior trainLoss valLoss start e N mode f th).1 =
        ⟨[], [], none, prior.opt⟩) ∧
    (∀ opt1 : List ParamGroup, _check_for_scheduler prior.opt = none →
      applyStart prior.opt start = .ok opt1 →
      ((lowerStr mode ≠ "exp" ∧ lowerStr mode ≠ "linear") →
        (range_test prior trainLoss valLoss start e N mode f th).2 = some .unknownStepMode ∧
        (range_test prior trainLoss valLoss start e N mode f th).1 =
          ⟨[], [], none, opt1⟩) ∧
      (∀ m : StepMode, parseMode mode = .ok m → N ≤ 1 →
        (range_test prior trainLoss valLoss start e N mode f th).2 =
          some .invalidIterationCount ∧
        (range_test prior trainLoss valLoss start e N mode f th).1 =
          ⟨[], [], none, opt1⟩) ∧
      (∀ m : StepMode, parseMode mode = .ok m → 1 < N → (f < 0 ∨ 1 ≤ f) →
        (range_test prior trainLoss valLoss start e N mode f th).2 =
          some .invalidSmoothingFactor ∧
        (range_test prior trainLoss valLoss start e N mode f th).1.history_lr = [] ∧
        (range_test prior trainLoss valLoss start e N mode f th).1.history_loss = [] ∧
        (range_test prior trainLoss valLoss start e N mode f th).1.best_loss = none ∧
        (range_test prior trainLoss valLoss start e N mode f th).1.opt.length =
          opt1.length ∧
        ∀ p, p ∈ (range_test prior trainLoss valLoss start e N mode f th).1.opt →
          p.initial_lr.isSome = true)) := by
  constructor
  · intro h
    rw [range_test_conflict prior trainLoss valLoss start e N mode f th h]
    exact ⟨rfl, rfl⟩
  · intro opt1 hchk hstart
    refine ⟨?_, ?_, ?_⟩
    · intro hm
      rw [range_test_badmode prior trainLoss valLoss start e N mode f th opt1 hchk hstart
        (parseMode_err mode hm.1 hm.2)]
      exact ⟨rfl, rfl⟩
    · intro m hmode hN
      rw [range_test_baditer prior trainLoss valLoss start e N mode f th opt1 m hchk hstart
        hmode hN]
      exact ⟨rfl, rfl⟩
    · intro m hmode hN hf
      rw [range_test_badsmooth prior trainLoss valLoss start e N mode f th opt1 _ m _ hchk
        hstart hmode hN hf rfl rfl]
      refine ⟨rfl, rfl, rfl, rfl, ?_, ?_⟩
      · simp only [length_applyLrs, Scheduler.length_get_lr]
        simp
      · intro p hp
        obtain ⟨g, hg, hpg⟩ := mem_applyLrs _ _ p hp
        obtain ⟨g0, -, hg0⟩ := List.mem_map.mp hg
        rw [hpg, ← hg0]
        rfl

end TorchLRFinder

namespace TorchLRFinder

/-- Broadcasting a scalar rate over the groups is a map over the groups. -/
theorem applyLrs_replicate (opt : List ParamGroup) (x : ℝ) :
    applyLrs opt (List.replicate opt.length x) = opt.map fun g => { g with lr := x } := by
  induction opt with
  | nil => rfl
  | cons g gs ih =>
    simp only [List.length_cons, List.replicate_succ, applyLrs, List.zip_cons_cons,
      List.map_cons] at *
    rw [← ih]

/-- A failing start-rate write makes range_test fail before the dispatch,
leaving the optimizer untouched. -/
theorem range_test_badstart (prior : FinderState) (trainLoss : ℕ → ℝ)
    (valLoss : Option (ℕ → ℝ)) (start : Option StartLR) (e : ℝ) (N : ℕ)
    (mode : String) (f th : ℝ) (er : LRErr)
    (hchk : _check_for_scheduler prior.opt = none)
    (hstart : applyStart prior.opt start = .error er) :
    range_test prior trainLoss valLoss start e N mode f th =
      ({ history_lr := [], history_loss := [], best_loss := none, opt := prior.opt },
       some er) := by
  simp only [range_test, hchk, hstart]

/-- Counterexample to claim C5 as stated: calling range_test with num_iter 1
on a finder whose History holds one record and whose optimizer rate is 3,
passing the truthy start_lr 7, raises InvalidIterationCount before any
iteration, yet History has been cleared and the optimizer rate overwritten,
so the shared state is not left unchanged by the failing call. -/
theorem c5_counterexample :
    (range_test ⟨[1], [5], some 5, [⟨3, none⟩]⟩ (fun _ => 1) none
      (some (.scalar 7)) 10 1 "exp" (1/20) 5).2 = some .invalidIterationCount ∧
    (range_test ⟨[1], [5], some 5, [⟨3, none⟩]⟩ (fun _ => 1) none
      (some (.scalar 7)) 10 1 "exp" (1/20) 5).1.history_loss = [] ∧
    (⟨[1], [5], some 5, [⟨3, none⟩]⟩ : FinderState).history_loss = [5] ∧
    ([] : List ℝ) ≠ [5] ∧
    (range_test ⟨[1], [5], some 5, [⟨3, none⟩]⟩ (fun _ => 1) none
      (some (.scalar 7)) 10 1 "exp" (1/20) 5).1.opt = [⟨7, none⟩] ∧
    (⟨[1], [5], some 5, [⟨3, none⟩]⟩ : FinderState).opt = [⟨3, none⟩] ∧
    (7 : ℝ) ≠ 3 := by
  have ht : startTruthy (some (StartLR.scalar 7)) = true := by
    simp only [startTruthy, decide_eq_true_eq]
    norm_num
  have hstart : applyStart [⟨(3 : ℝ), none⟩] (some (.scalar 7)) = .ok [⟨7, none⟩] := by
    rw [applyStart_some, if_pos ht, set_lr_scalar, if_neg (by simp)]
    rfl
  have h := range_test_baditer ⟨[1], [5], some 5, [⟨3, none⟩]⟩ (fun _ => 1) none
    (some (.scalar 7)) 10 1 "exp" (1/20) 5 [⟨7, none⟩] StepMode.exp rfl hstart
    (by decide) (le_refl 1)
  rw [h]
  refine ⟨rfl, rfl, rfl, by simp, rfl, rfl, by norm_num⟩

/-- Claim C6 (amended): a truthy explicit start_lr, a nonzero scalar or a
nonempty list, is written into every parameter group before the sweep, a
scalar being broadcast to all groups, and a nonempty per-group list of the
wrong length raises MismatchedGroupCount; but a scalar start_lr of 0.0, being
falsy in the truthiness test the source uses, is silently ignored and the
optimizer rates are left as they were. -/
theorem c6_start_lr_truthy (opt : List ParamGroup) (x : ℝ) (xs : List ℝ)
    (prior : FinderState) (trainLoss : ℕ → ℝ) (valLoss : Option (ℕ → ℝ)) (e : ℝ)
    (N : ℕ) (mode : String) (f th : ℝ) :
    (x ≠ 0 → applyStart opt (some (.scalar x)) =
      .ok (opt.map fun g => { g with lr := x })) ∧
    (applyStart opt (some (.scalar 0)) = .ok opt) ∧
    (xs ≠ [] → xs.length = opt.length →
      applyStart opt (some (.groups xs)) = .ok (applyLrs opt xs)) ∧
    (xs ≠ [] → xs.length ≠ opt.length →
      applyStart opt (some (.groups xs)) = .error .mismatchedGroupCount) ∧
    (prior.opt = opt → _check_for_scheduler opt = none → xs ≠ [] →
      xs.length ≠ opt.length →
      (range_test prior trainLoss valLoss (some (.groups xs)) e N mode f th).2 =
        some .mismatchedGroupCount ∧
      (range_test prior trainLoss valLoss (some (.groups xs)) e N mode f th).1 =
        ⟨[], [], none, opt⟩) := by
  have hgroups : ∀ ys : List ParamGroup, ∀ zs : List ℝ, zs ≠ [] →
      applyStart ys (some (.groups zs)) = _set_learning_rate ys (.groups zs) := by
    intro ys zs hzs
    have ht : startTruthy (some (StartLR.groups zs)) = true := by
      simp only [startTruthy, Bool.not_eq_true']
      simpa using hzs
    rw [applyStart_some, if_pos ht]
  refine ⟨?_, ?_, ?_, ?_, ?_⟩
  · intro hx
    have ht : startTruthy (some (StartLR.scalar x)) = true := by
      simp only [startTruthy, decide_eq_true_eq]
      exact hx
    rw [applyStart_some, if_pos ht, set_lr_scalar, if_neg (by simp), applyLrs_replicate]
  · have ht : startTruthy (some (StartLR.scalar 0)) = false := by
      simp [startTruthy]
    rw [applyStart_some, if_neg (by simp [ht])]
  · intro hxs hlen
    rw [hgroups opt xs hxs, set_lr_groups, if_neg (by simp [hlen])]
  · intro hxs hlen
    rw [hgroups opt xs hxs, set_lr_groups, if_pos (by simp [hlen])]
  · intro hpo hchk hxs hlen
    have hstart : applyStart prior.opt (some (.groups xs)) = .error .mismatchedGroupCount := by
      rw [hpo, hgroups opt xs hxs, set_lr_groups, if_pos (by simp [hlen])]
    rw [range_test_badstart prior trainLoss valLoss (some (.groups xs)) e N mode f th
      .mismatchedGroupCount (by rw [hpo]; exact hchk) hstart]
    exact ⟨rfl, by rw [hpo]⟩

end TorchLRFinder

namespace TorchLRFinder

/-- Counterexample to claim C6 as stated: with the explicit scalar start_lr
0.0 and an optimizer whose single group has rate 3, the start rate is not
written (applyStart leaves the group at 3, not 0), and the completed sweep
records the base rate 3 as its first learning rate instead of 0. -/
theorem c6_counterexample :
    applyStart [⟨3, none⟩] (some (.scalar 0)) = .ok [⟨3, none⟩] ∧
    (3 : ℝ) ≠ 0 ∧
    (range_test ⟨[], [], none, [⟨3, none⟩]⟩ (fun _ => 1) none (some (.scalar 0)) 10 2
      "linear" 0 5).2 = none ∧
    (range_test ⟨[], [], none, [⟨3, none⟩]⟩ (fun _ => 1) none (some (.scalar 0)) 10 2
      "linear" 0 5).1.history_lr.getD 0 99 = 3 := by
  have ht : startTruthy (some (StartLR.scalar 0)) = false := by
    simp [startTruthy]
  have hstart : applyStart [⟨(3 : ℝ), none⟩] (some (.scalar 0)) = .ok [⟨3, none⟩] := by
    rw [applyStart_some, if_neg (by simp [ht])]
  refine ⟨hstart, by norm_num, ?_, ?_⟩
  all_goals
    obtain ⟨k, hk0, hkN, heq, hkn, -⟩ := range_test_run ⟨[], [], none, [⟨3, none⟩]⟩
      (fun _ => 1) none (some (.scalar 0)) 10 2 "linear" 0 5 [⟨3, none⟩] [⟨3, some 3⟩]
      StepMode.linear ⟨StepMode.linear, 10, 2, [3]⟩ rfl hstart (by decide) (by norm_num)
      (le_refl 0) (by norm_num) rfl rfl
  · rw [heq]
  · have hnod : ∀ i, i < 2 →
        ¬ diverged ((none : Option (ℕ → ℝ)).getD (fun _ => 1)) 0 5 i := by
      intro i hi
      have hrec : ∀ j, recSeq ((none : Option (ℕ → ℝ)).getD (fun _ => 1)) 0 j = 1 :=
        recSeq_eq_raw _ _ (lt_irrefl 0)
      have hbest : ∀ j, bestSeq ((none : Option (ℕ → ℝ)).getD (fun _ => 1)) 0 j = 1 := by
        intro j
        induction j with
        | zero => rfl
        | succ n ihn =>
          rw [bestSeq, hrec, ihn, if_neg (by norm_num)]
      simp only [diverged, hrec, hbest]
      norm_num
    have hk2 : k = 2 := hkn hnod
    subst hk2
    rw [heq]
    have hr2 : List.range 2 = [0, 1] := rfl
    simp only [hr2, List.map_cons, List.map_nil, List.getD, List.getElem?_cons_zero,
      Option.getD_some]
    show lrAt ⟨StepMode.linear, 10, 2, [3]⟩ 0 = 3
    simp only [lrAt, Scheduler.get_lr, LinearLR.get_lr, List.map_cons, List.map_nil,
      List.headD]
    norm_num

end TorchLRFinder


namespace TorchLRFinder

/-- Element access through a drop. -/
theorem getD_drop (l : List ℝ) (n i : ℕ) : (l.drop n).getD i 0 = l.getD (n + i) 0 := by
  simp only [List.getD, List.get?_eq_getElem?]
  rw [List.getElem?_drop]

/-- Element access through a take, inside the kept range. -/
theorem getD_take (l : List ℝ) (k i : ℕ) (h : i < k) :
    (l.take k).getD i 0 = l.getD i 0 := by
  simp only [List.getD, List.get?_eq_getElem?]
  rw [List.getElem?_take_of_lt h]

/-- plot with admissible skip counts returns the two trimmed series. -/
theorem plot_ok (lrs losses : List ℝ) (ss se : ℤ) (b : Bool)
    (h1 : ¬ ss < 0) (h2 : ¬ se < 0) :
    plot lrs losses ss se b = .ok (trimmed lrs ss se, trimmed losses ss se,
      if b then suggestion (trimmed lrs ss se) (trimmed losses ss se) else none) := by
  unfold plot
  rw [if_neg h1, if_neg h2]

/-- The length of a trimmed series, for a non-negative end skip. -/
theorem trimmed_length (xs : List ℝ) (ss se : ℤ) (hse : 0 ≤ se) :
    (trimmed xs ss se).length = xs.length - ss.toNat - se.toNat := by
  unfold trimmed
  by_cases h : se = 0
  · subst h
    rw [if_pos rfl, List.length_drop]
    omega
  · rw [if_neg h, List.length_drop, List.length_take]
    omega

/-- The elements of a trimmed series are the source elements shifted by the
start skip. -/
theorem trimmed_getD (xs : List ℝ) (ss se : ℤ) (i : ℕ) (hse : 0 ≤ se)
    (hi : i < (trimmed xs ss se).length) :
    (trimmed xs ss se).getD i 0 = xs.getD (ss.toNat + i) 0 := by
  rw [trimmed_length xs ss se hse] at hi
  unfold trimmed
  by_cases h : se = 0
  · subst h
    rw [if_pos rfl]
    exact getD_drop xs ss.toNat i
  · rw [if_neg h, getD_drop, getD_take xs (xs.length - se.toNat) (ss.toNat + i) (by omega)]

/-- Claim C7: for non-negative skip counts the analyzer keeps, of each history
series, exactly the records from index skip_start up to the length less
skip_end, elementwise; this is the slice from skip_start when skip_end is 0
and the slice from skip_start to minus skip_end otherwise; a negative skip
count raises InvalidTrimRange before trimming. -/
theorem c7_trim (lrs losses : List ℝ) (ss se : ℤ) (b : Bool) :
    (0 ≤ ss → 0 ≤ se →
      ∃ tlrs tlosses sugg,
        plot lrs losses ss se b = .ok (tlrs, tlosses, sugg) ∧
        tlrs.length = lrs.length - ss.toNat - se.toNat ∧
        tlosses.length = losses.length - ss.toNat - se.toNat ∧
        (∀ i, i < tlrs.length → tlrs.getD i 0 = lrs.getD (ss.toNat + i) 0) ∧
        (∀ i, i < tlosses.length → tlosses.getD i 0 = losses.getD (ss.toNat + i) 0) ∧
        (se = 0 → tlrs = lrs.drop ss.toNat ∧ tlosses = losses.drop ss.toNat) ∧
        (se ≠ 0 → tlrs = (lrs.take (lrs.length - se.toNat)).drop ss.toNat ∧
          tlosses = (losses.take (losses.length - se.toNat)).drop ss.toNat)) ∧
    ((ss < 0 ∨ se < 0) → plot lrs losses ss se b = .error .invalidTrimRange) := by
  constructor
  · intro hss hse
    have h1 : ¬ (ss < 0) := by omega
    have h2 : ¬ (se < 0) := by omega
    refine ⟨trimmed lrs ss se, trimmed losses ss se, _, plot_ok lrs losses ss se b h1 h2,
      trimmed_length lrs ss se hse, trimmed_length losses ss se hse,
      fun i hi => trimmed_getD lrs ss se i hse hi,
      fun i hi => trimmed_getD losses ss se i hse hi, ?_, ?_⟩
    · intro h0
      subst h0
      unfold trimmed
      rw [if_pos rfl, if_pos rfl]
      exact ⟨rfl, rfl⟩
    · intro h0
      unfold trimmed
      rw [if_neg h0, if_neg h0]
      exact ⟨rfl, rfl⟩
  · intro h
    by_cases h1 : ss < 0
    · unfold plot
      rw [if_pos h1]
    · have h2 : se < 0 := by
        rcases h with h | h
        · exact absurd h h1
        · exact h
      unfold plot
      rw [if_neg h1, if_pos h2]

end TorchLRFinder

namespace TorchLRFinder

/-- Unfolding of the argmin accumulator on an empty tail. -/
theorem argminAux_nil (best : ℝ) (bestIdx cur : ℕ) :
    argminAux best bestIdx cur [] = bestIdx := rfl

/-- Unfolding of the argmin accumulator on a nonempty tail. -/
theorem argminAux_cons (best : ℝ) (bestIdx cur : ℕ) (y : ℝ) (ys : List ℝ) :
    argminAux best bestIdx cur (y :: ys) =
      if y < best then argminAux y cur (cur + 1) ys
      else argminAux best bestIdx (cur + 1) ys := rfl

/-- The argmin accumulator run on the tail of g from position cur returns an
index inside g whose element is a lower bound of all of g, provided the
accumulated best value is the element at the accumulated index and already a
lower bound of the elements before cur. -/
theorem argminAux_spec (g : List ℝ) :
    ∀ n cur best bestIdx, g.length - cur = n → cur ≤ g.length → bestIdx < g.length →
      g.getD bestIdx 0 = best → (∀ j, j < cur → best ≤ g.getD j 0) →
      argminAux best bestIdx cur (g.drop cur) < g.length ∧
      ∀ j, j < g.length → g.getD (argminAux best bestIdx cur (g.drop cur)) 0 ≤ g.getD j 0 := by
  intro n
  induction n with
  | zero =>
    intro cur best bestIdx hn hcur hb hbv hlb
    have hdrop : g.drop cur = [] := List.drop_eq_nil_of_le (by omega)
    rw [hdrop, argminAux_nil]
    refine ⟨hb, ?_⟩
    intro j hj
    rw [hbv]
    exact hlb j (by omega)
  | succ n ih =>
    intro cur best bestIdx hn hcur hb hbv hlb
    have hcur2 : cur < g.length := by omega
    have hdrop : g.drop cur = g[cur] :: g.drop (cur + 1) := List.drop_eq_getElem_cons hcur2
    have hgD : g[cur] = g.getD cur 0 := (List.getD_eq_getElem g 0 hcur2).symm
    rw [hdrop, argminAux_cons]
    by_cases hy : g[cur] < best
    · rw [if_pos hy]
      exact ih (cur + 1) g[cur] cur (by omega) (by omega) hcur2 (by rw [hgD]) (by
        intro j hj
        by_cases hj2 : j < cur
        · exact le_trans (le_of_lt hy) (hlb j hj2)
        · have hj3 : j = cur := by omega
          subst hj3
          rw [hgD])
    · rw [if_neg hy]
      exact ih (cur + 1) best bestIdx (by omega) (by omega) hb hbv (by
        intro j hj
        by_cases hj2 : j < cur
        · exact hlb j hj2
        · have hj3 : j = cur := by omega
          subst hj3
          rw [← hgD]
          exact not_lt.mp hy)

/-- On a nonempty list, argminIdx is a valid index and its element is the
minimum of the list. -/
theorem argminIdx_spec (g : List ℝ) (h : g ≠ []) :
    argminIdx g < g.length ∧
    ∀ j, j < g.length → g.getD (argminIdx g) 0 ≤ g.getD j 0 := by
  cases g with
  | nil => exact absurd rfl h
  | cons x xs =>
    have h1 : argminIdx (x :: xs) = argminAux x 0 1 ((x :: xs).drop 1) := rfl
    rw [h1]
    exact argminAux_spec (x :: xs) ((x :: xs).length - 1) 1 x 0 rfl (by simp) (by simp)
      rfl (by
        intro j hj
        have hj0 : j = 0 := by omega
        subst hj0
        exact le_refl _)

/-- A successful gradient determines the length bounds of its input and
output. -/
theorem npGradient_spec (ys g : List ℝ) (h : npGradient ys = some g) :
    2 ≤ ys.length ∧ g.length = ys.length := by
  unfold npGradient at h
  by_cases h2 : ys.length < 2
  · rw [if_pos h2] at h
    cases h
  · rw [if_neg h2] at h
    injection h with h
    rw [← h]
    constructor
    · omega
    · simp

/-- Fewer than two points make the gradient fail. -/
theorem npGradient_short (ys : List ℝ) (h : ys.length < 2) : npGradient ys = none := by
  unfold npGradient
  rw [if_pos h]

/-- A computed gradient with a nonzero argmin yields the rate at the argmin. -/
theorem suggestion_some (lrs losses g : List ℝ) (hg : npGradient losses = some g)
    (hidx : argminIdx g ≠ 0) :
    suggestion lrs losses = some (lrs.getD (argminIdx g) 0) := by
  unfold suggestion
  rw [hg]
  show (if argminIdx g ≠ 0 then some (lrs.getD (argminIdx g) 0) else none) =
    some (lrs.getD (argminIdx g) 0)
  rw [if_pos hidx]

/-- A computed gradient whose argmin is index 0 yields no suggestion. -/
theorem suggestion_zero (lrs losses g : List ℝ) (hg : npGradient losses = some g)
    (hidx : argminIdx g = 0) :
    suggestion lrs losses = none := by
  unfold suggestion
  rw [hg]
  show (if argminIdx g ≠ 0 then some (lrs.getD (argminIdx g) 0) else none) = none
  rw [if_neg (by simpa using hidx)]

end TorchLRFinder

namespace TorchLRFinder

/-- Trimming with both skips at 0 keeps the series unchanged. -/
theorem trimmed_id (xs : List ℝ) : trimmed xs 0 0 = xs := by
  unfold trimmed
  rw [if_pos rfl]
  rfl

/-- Claim C8 (amended): on a trimmed history whose gradient is computable (at
least 2 points), plot with the suggestion enabled returns the learning rate at
the first index of the minimal finite-difference gradient of the losses,
provided that index is nonzero; the index really is a minimizer of the
gradient.  When the index is 0, or when fewer than 2 points remain, the
suggestion is absent rather than an error. -/
theorem c8_steepest (lrs losses g : List ℝ)
    (hg : npGradient losses = some g) (hidx : argminIdx g ≠ 0) :
    plot lrs losses 0 0 true = .ok (lrs, losses, some (lrs.getD (argminIdx g) 0)) ∧
    argminIdx g < g.length ∧
    (∀ j, j < g.length → g.getD (argminIdx g) 0 ≤ g.getD j 0) ∧
    g.length = losses.length ∧
    (∀ g2 : List ℝ, npGradient losses = some g2 → argminIdx g2 = 0 →
      plot lrs losses 0 0 true = .ok (lrs, losses, none)) ∧
    (∀ ls2 : List ℝ, ls2.length < 2 → plot lrs ls2 0 0 true = .ok (lrs, ls2, none)) := by
  have h0 : ¬ ((0 : ℤ) < 0) := by omega
  have hlen := npGradient_spec losses g hg
  have hne : g ≠ [] := by
    intro hnil
    rw [hnil] at hlen
    simp at hlen
    omega
  have hspec := argminIdx_spec g hne
  refine ⟨?_, hspec.1, hspec.2, hlen.2, ?_, ?_⟩
  · rw [plot_ok lrs losses 0 0 true h0 h0, trimmed_id, trimmed_id]
    show Except.ok (lrs, losses, suggestion lrs losses) = _
    rw [suggestion_some lrs losses g hg hidx]
  · intro g2 hg2 hidx2
    rw [plot_ok lrs losses 0 0 true h0 h0, trimmed_id, trimmed_id]
    show Except.ok (lrs, losses, suggestion lrs losses) = _
    rw [suggestion_zero lrs losses g2 hg2 hidx2]
  · intro ls2 h2
    rw [plot_ok lrs ls2 0 0 true h0 h0, trimmed_id, trimmed_id]
    show Except.ok (lrs, ls2, suggestion lrs ls2) = _
    unfold suggestion
    rw [npGradient_short ls2 h2]

/-- Counterexample to claim C8 as stated: the trimmed losses 0, 1, 3 have
three points and their finite-difference gradient 1, 3/2, 2 has its minimum at
index 0, so the claim demands the suggested rate 10; but the source tests the
index for truthiness, index 0 is falsy, and no suggestion is returned. -/
theorem c8_counterexample :
    npGradient [0, 1, 3] = some [1, 3 / 2, 2] ∧
    argminIdx [1, 3 / 2, 2] = 0 ∧
    ([0, 1, 3] : List ℝ).length = 3 ∧
    plot [10, 20, 30] [0, 1, 3] 0 0 true = .ok ([10, 20, 30], [0, 1, 3], none) := by
  have hr : List.range 3 = [0, 1, 2] := rfl
  have hgrad : npGradient [0, 1, 3] = some [1, 3 / 2, 2] := by
    unfold npGradient
    rw [if_neg (by norm_num)]
    rw [show ([0, 1, 3] : List ℝ).length = 3 from rfl, hr]
    norm_num [List.getD]
  have hidx : argminIdx [1, 3 / 2, 2] = 0 := by
    show argminAux 1 0 1 [3 / 2, 2] = 0
    rw [argminAux_cons, if_neg (by norm_num), argminAux_cons, if_neg (by norm_num),
      argminAux_nil]
  refine ⟨hgrad, hidx, rfl, ?_⟩
  rw [plot_ok [10, 20, 30] [0, 1, 3] 0 0 true (by omega) (by omega), trimmed_id, trimmed_id]
  show Except.ok ([10, 20, 30], [0, 1, 3], suggestion [10, 20, 30] [0, 1, 3]) = _
  rw [suggestion_zero [10, 20, 30] [0, 1, 3] [1, 3 / 2, 2] hgrad hidx]

/-- Witness for C8: losses 3, 2, 0 at rates 10, 20, 30 have gradient
-1, -3/2, -2, steepest at index 2, suggesting the rate 30. -/
theorem c8_steepest_witness :
    npGradient [3, 2, 0] = some [-1, -(3 / 2), -2] ∧
    (plot [10, 20, 30] [3, 2, 0] 0 0 true =
      .ok ([10, 20, 30], [3, 2, 0],
        some (([10, 20, 30] : List ℝ).getD (argminIdx [-1, -(3 / 2), -2]) 0)) ∧
    argminIdx [-1, -(3 / 2), -2] < ([-1, -(3 / 2), -2] : List ℝ).length ∧
    (∀ j, j < ([-1, -(3 / 2), -2] : List ℝ).length →
      ([-1, -(3 / 2), -2] : List ℝ).getD (argminIdx [-1, -(3 / 2), -2]) 0 ≤
        ([-1, -(3 / 2), -2] : List ℝ).getD j 0) ∧
    ([-1, -(3 / 2), -2] : List ℝ).length = ([3, 2, 0] : List ℝ).length ∧
    (∀ g2 : List ℝ, npGradient [3, 2, 0] = some g2 → argminIdx g2 = 0 →
      plot [10, 20, 30] [3, 2, 0] 0 0 true = .ok ([10, 20, 30], [3, 2, 0], none)) ∧
    (∀ ls2 : List ℝ, ls2.length < 2 →
      plot [10, 20, 30] ls2 0 0 true = .ok ([10, 20, 30], ls2, none))) := by
  have hr : List.range 3 = [0, 1, 2] := rfl
  have hgrad : npGradient [3, 2, 0] = some [-1, -(3 / 2), -2] := by
    unfold npGradient
    rw [if_neg (by norm_num)]
    rw [show ([3, 2, 0] : List ℝ).length = 3 from rfl, hr]
    norm_num [List.getD]
  have hidx : argminIdx [-1, -(3 / 2), -2] = 2 := by
    show argminAux (-1) 0 1 [-(3 / 2), -2] = 2
    rw [argminAux_cons, if_pos (by norm_num), argminAux_cons, if_pos (by norm_num),
      argminAux_nil]
  exact ⟨hgrad,
    c8_steepest [10, 20, 30] [3, 2, 0] [-1, -(3 / 2), -2] hgrad (by rw [hidx]; omega)⟩

end TorchLRFinder
